import Mathlib

/-!
Verification development for the k9s excerpt consisting of
`internal/config/views.go` (the CustomView registry) and
`internal/xray/container.go` (the Container xray renderer).

The Go code is shallowly embedded as executable Lean definitions.
Go maps are embedded as association lists whose order stands for the
map iteration order, which Go leaves unspecified.  External
collaborators (the regexp package, the file system, the YAML parser,
the JSON schema validator, the dao.Factory) are parameters of the
embedding: each is a plain function supplied by the environment.
Side effects (slog warnings, listener notifications) are returned as
explicit event lists.
-/

set_option autoImplicit false

namespace K9s

/-! ## String splitting

Translation of the Go standard library function `strings.Split`
specialized to a one-character separator, over explicit character
lists.  `strings.Split(s, sep)` with a non-empty separator returns
`count(sep) + 1` fields; the translation below has the same shape. -/

def splitCh : List Char → Char → List (List Char)
  | [], _ => [[]]
  | c :: cs, sep =>
    if c = sep then [] :: splitCh cs sep
    else
      match splitCh cs sep with
      | t :: ts => (c :: t) :: ts
      | [] => [[c]]

/-- Characters strictly after the first occurrence of `c` in `l`
(the whole of `l` is dropped when `c` does not occur). -/
def afterFirst (l : List Char) (c : Char) : List Char :=
  (l.dropWhile (fun x => x ≠ c)).tail

/-- Translation of Go `strings.HasPrefix(s, pre)`, over character lists,
written out structurally so that concrete instances reduce. -/
def listStarts : List Char → List Char → Bool
  | [], _ => true
  | _ :: _, [] => false
  | p :: ps, s :: ss => p == s && listStarts ps ss

/-- Go `strings.HasPrefix(s, pre)`: does `s` start with `pre`? -/
def strStarts (pre s : String) : Bool :=
  listStarts pre.data s.data

/-- Naive substring search over character lists, used by the concrete
regular-expression engine of the witnesses. -/
def hasSub : List Char → List Char → Bool
  | pat, [] => listStarts pat []
  | pat, s@(_ :: ss) => listStarts pat s || hasSub pat ss

/-! ## internal/config/views.go -/

/-- ViewSetting from views.go: per-kind column and sort overrides. -/
structure ViewSetting where
  columns : List String
  sortColumn : String
deriving DecidableEq, Repr

/-- SortCol from views.go.  The Go receiver may be nil, hence the
`Option` argument; the Go `(string, bool, error)` result becomes an
`Except`: `error` is the non-nil-error case, `ok` carries the column
name and the ascending flag. -/
def SortCol : Option ViewSetting → Except String (String × Bool)
  | none => Except.error "no sort column specified"
  | some v =>
    if v.sortColumn = "" then Except.error "no sort column specified"
    else
      match splitCh v.sortColumn.data ':' with
      | t0 :: t1 :: _ => Except.ok (String.mk t0, String.mk t1 == "asc")
      | _ => Except.error ("invalid sort column spec: " ++ v.sortColumn ++ ". must be col-name:asc|desc")

/-- Abstract interface of the Go `regexp` package as used by getVS:
`compile` returns `none` when `regexp.Compile` errors, otherwise a
matcher standing for `rx.MatchString`. -/
structure RegexEngine where
  compile : String → Option (String → Bool)

/-- Target key computed at the top of getVS:
`k := gvr; if ns != "" { k += "@" + ns }`. -/
def targetKey (gvr ns : String) : String :=
  if ns = "" then gvr else gvr ++ "@" ++ ns

/-- Loop body of CustomView.getVS from views.go, over the list of
map entries in iteration order. -/
def getVSGo (eng : RegexEngine) (k gvr : String) :
    List (String × ViewSetting) → Option ViewSetting
  | [] => none
  | (key, vs) :: rest =>
    if strStarts gvr key then
      if key = k then some vs
      else if key.data.contains '@' then
        match splitCh key.data '@' with
        | [_, pat] =>
          match eng.compile (String.mk pat) with
          | some m => if m k then some vs else getVSGo eng k gvr rest
          | none => getVSGo eng k gvr rest
        | _ => getVSGo eng k gvr rest
      else getVSGo eng k gvr rest
    else getVSGo eng k gvr rest

/-- CustomView.getVS from views.go. -/
def getVS (eng : RegexEngine) (views : List (String × ViewSetting)) (gvr ns : String) :
    Option ViewSetting :=
  getVSGo eng (targetKey gvr ns) gvr views

/-- Declarative per-key match predicate: the key has string prefix
`gvr` and either equals the target key `k` exactly, or contains
exactly one `@` and the text after the `@` compiles to a regular
expression that matches `k`.  Used to characterize getVS as a single
first-match scan. -/
def keyMatches (eng : RegexEngine) (k gvr key : String) : Bool :=
  strStarts gvr key &&
    (key == k ||
      (key.data.count '@' == 1 &&
        match eng.compile (String.mk (afterFirst key.data '@')) with
        | some m => m k
        | none => false))

/-- Matching rule in the form the claim states it: among the keys
whose string prefix is `gvr`, an exact match with `k` is returned
first, over the whole mapping; only when no exact match exists is the
first regex candidate returned.  This definition follows the words of
the claim and is compared with `getVS`, the translation of the code. -/
def getVSClaim (eng : RegexEngine) (views : List (String × ViewSetting)) (gvr ns : String) :
    Option ViewSetting :=
  let k := targetKey gvr ns
  let cands := views.filter (fun kv => strStarts gvr kv.1)
  match cands.find? (fun kv => kv.1 == k) with
  | some kv => some kv.2
  | none =>
    (cands.find? (fun kv =>
        kv.1.data.count '@' == 1 &&
          match eng.compile (String.mk (afterFirst kv.1.data '@')) with
          | some m => m k
          | none => false)).map (fun kv => kv.2)

/-- Concrete engine used by witnesses: every pattern compiles, and a
pattern matches a string when it occurs in it literally.  This agrees
with the Go regexp package on metacharacter-free patterns, which are
the only patterns the witnesses use. -/
def litEngine : RegexEngine :=
  ⟨fun pat => some (fun s => hasSub pat.data s.data)⟩

/-- View-config listener, reduced to its observable data: the
namespace it reports through GetNamespace.  Notifications delivered
through ViewSettingsChanged are modelled as explicit event lists. -/
structure ViewListener where
  ns : String
deriving DecidableEq, Repr

/-- Generic association-list update with the store semantics of a Go
map assignment `m[k] = v`: replace the binding when the key is
present, append it otherwise. -/
def upsert {β : Type} (ls : List (String × β)) (k : String) (v : β) : List (String × β) :=
  if ls.any (fun p => p.1 == k) then
    ls.map (fun p => if p.1 == k then (k, v) else p)
  else ls ++ [(k, v)]

/-- Generic association-list lookup, the read side of a Go map. -/
def lookupKey {β : Type} (ls : List (String × β)) (k : String) : Option β :=
  (ls.find? (fun p => p.1 == k)).map (fun p => p.2)

/-- CustomView from views.go: the Views mapping and the listeners
mapping, both as association lists in iteration order. -/
structure CustomView where
  views : List (String × ViewSetting)
  listeners : List (String × ViewListener)
deriving Repr

/-- Notification event: the listener key (gvr) together with the
setting delivered to it (none models the nil delivery). -/
abbrev ViewEvent := String × Option ViewSetting

/-- CustomView.fireConfigChanged from views.go: for every registered
listener, deliver the setting computed by getVS from its gvr and its
reported namespace.  The returned list records the deliveries. -/
def fireConfigChanged (eng : RegexEngine) (cv : CustomView) : List ViewEvent :=
  cv.listeners.map (fun gl => (gl.1, getVS eng cv.views gl.1 gl.2.ns))

/-- CustomView.AddListener from views.go: store the listener under its
gvr, then fire a change notification to every registered listener. -/
def AddListener (eng : RegexEngine) (cv : CustomView) (g : String) (l : ViewListener) :
    CustomView × List ViewEvent :=
  let cv2 : CustomView := { cv with listeners := upsert cv.listeners g l }
  (cv2, fireConfigChanged eng cv2)

/-- Outcome of the file-system access made by CustomView.Load for the
given path: the stat call reports the file as absent, or the read
fails, or the read yields the file content. -/
inductive FileOutcome where
  | notExist
  | unreadable (e : String)
  | content (bb : String)

/-- Environment of CustomView.Load: the file system outcome for the
loaded path, the JSON schema validator (some e = validation failure),
and the YAML parser yielding the parsed Views mapping.  All three are
external collaborators of views.go. -/
structure LoadEnv where
  file : FileOutcome
  schemaValidate : String → Option String
  parse : String → Except String (List (String × ViewSetting))

/-- Result of CustomView.Load: the returned error (none = nil), the
updated registry, the diagnostic warnings logged (each naming the path
and the validation error), and the listener notifications fired. -/
structure LoadOut where
  err : Option String
  cv : CustomView
  warns : List (String × String)
  events : List ViewEvent

/-- CustomView.Load from views.go: stat, read, schema-validate
(advisory: warn only), parse (hard error), replace Views, notify. -/
def Load (eng : RegexEngine) (env : LoadEnv) (cv : CustomView) (path : String) : LoadOut :=
  match env.file with
  | FileOutcome.notExist => ⟨none, cv, [], []⟩
  | FileOutcome.unreadable e => ⟨some e, cv, [], []⟩
  | FileOutcome.content bb =>
    let warns :=
      match env.schemaValidate bb with
      | some ve => [(path, ve)]
      | none => []
    match env.parse bb with
    | Except.error e => ⟨some e, cv, warns, []⟩
    | Except.ok vws =>
      let cv2 : CustomView := { cv with views := vws }
      ⟨none, cv2, warns, fireConfigChanged eng cv2⟩

/-! ## internal/xray/container.go -/

/-- Resource kind discriminator.  The Go client.GVR value is used by
the analyzed code only as an identity, so a string model suffices. -/
abbrev GVR := String

/-- Label selector passed to Factory.Get.  `everything` is the
unrestricted selector `labels.Everything()`. -/
inductive Selector where
  | everything
  | labeled (sel : String)
deriving DecidableEq, Repr

/-- Modelled from the spec: the live-state accessor (dao.Factory),
declared outside the analyzed sources, reduced to its single read
operation `Get(gvr, id, skipCache, selector) → (object, error)`.  The
Go pair of nilable results becomes a pair of options. -/
structure Factory (α : Type) where
  get : GVR → String → Bool → Selector → Option α × Option String

/-- Modelled from the spec: TreeNode (declared in the xray package
outside the analyzed sources): identity (gvr, id), the Extras status
map, and the ordered child list. -/
inductive TreeNode where
  | mk (gvr : GVR) (id : String) (extras : List (String × String)) (children : List TreeNode)

def TreeNode.gvr : TreeNode → GVR
  | TreeNode.mk g _ _ _ => g

def TreeNode.id : TreeNode → String
  | TreeNode.mk _ i _ _ => i

def TreeNode.extras : TreeNode → List (String × String)
  | TreeNode.mk _ _ e _ => e

def TreeNode.children : TreeNode → List TreeNode
  | TreeNode.mk _ _ _ c => c

/-- Modelled from the spec: NewTreeNode builds a node with empty
children and empty Extras. -/
def NewTreeNode (g : GVR) (i : String) : TreeNode :=
  TreeNode.mk g i [] []

/-- Modelled from the spec: TreeNode.Find is a direct-children lookup
by (kind, id), returning the existing child or none. -/
def TreeNode.Find (p : TreeNode) (g : GVR) (i : String) : Option TreeNode :=
  p.children.find? (fun c => c.gvr == g && c.id == i)

/-- Modelled from the spec: TreeNode.Add appends the child to the
ordered child sequence, with no identity check of its own. -/
def TreeNode.Add (p : TreeNode) (n : TreeNode) : TreeNode :=
  TreeNode.mk p.gvr p.id p.extras (p.children ++ [n])

/-- Write to the Extras status map (Go `n.Extras[k] = v`). -/
def TreeNode.setExtraKey (n : TreeNode) (k v : String) : TreeNode :=
  TreeNode.mk n.gvr n.id (upsert n.extras k v) n.children

/-- Modelled from the spec: the status Extra key and the two status
values Ok and MissingRef, declared in the xray package outside the
analyzed sources. -/
def StatusKey : String := "status"

def OkStatus : String := "Ok"

def MissingRefStatus : String := "MissingRef"

/-- Modelled from the spec: the container, config-map and secret kind
constants of the client package, distinct identities. -/
def CoGVR : GVR := "containers"

def CmGVR : GVR := "v1/configmaps"

def SecGVR : GVR := "v1/secrets"

/-- Modelled from the spec: client.FQN produces the namespace-qualified
name `ns/name` (bare name when the namespace is empty). -/
def FQN (ns n : String) : String :=
  if ns = "" then n else ns ++ "/" ++ n

/-- Modelled from the spec: client.Namespaced splits a fully qualified
id into its namespace and name components. -/
def Namespaced (i : String) : String × String :=
  if i.data.contains '/' then
    (String.mk (i.data.takeWhile (fun c => c ≠ '/')), String.mk (afterFirst i.data '/'))
  else ("", i)

/-- Diagnostic warning logged by validate: the (gvr, id) pair of the
missing reference. -/
abbrev RefWarn := GVR × String

/-- validate from container.go: query the factory fresh with the
unrestricted selector; on error-or-nil result, either warn and mark
MissingRef (optional nil or false) or do nothing (optional true); on
success mark Ok.  The Go function returns nothing: the embedding
returns the updated node and the warnings, with no error component. -/
def validate {α : Type} (f : Factory α) (n : TreeNode) (optional : Option Bool) :
    TreeNode × List RefWarn :=
  match f.get n.gvr n.id true Selector.everything with
  | (res, err) =>
    if err.isSome || res.isNone then
      match optional with
      | some true => (n, [])
      | _ => (n.setExtraKey StatusKey MissingRefStatus, [(n.gvr, n.id)])
    else
      (n.setExtraKey StatusKey OkStatus, [])

/-- addRef from container.go: look up (gvr, id) among the parent
children; when absent, create a node, validate it, and attach it. -/
def addRef {α : Type} (f : Factory α) (parent : TreeNode) (g : GVR) (i : String)
    (optional : Option Bool) : TreeNode × List RefWarn :=
  match parent.Find g i with
  | some _ => (parent, [])
  | none =>
    let v := validate f (NewTreeNode g i) optional
    (parent.Add v.1, v.2)

/-- Secret key selector of an env var value source (core/v1 data). -/
structure SecretKeySelector where
  name : String
  optional : Option Bool
deriving DecidableEq, Repr

/-- Config map key selector of an env var value source (core/v1 data). -/
structure ConfigMapKeySelector where
  name : String
  optional : Option Bool
deriving DecidableEq, Repr

/-- Env var value source (core/v1 data), restricted to the fields the
renderer reads. -/
structure EnvVarSource where
  secretKeyRef : Option SecretKeySelector
  configMapKeyRef : Option ConfigMapKeySelector
deriving DecidableEq, Repr

/-- Environment variable (core/v1 data), restricted to the fields the
renderer reads. -/
structure EnvVar where
  valueFrom : Option EnvVarSource
deriving DecidableEq, Repr

/-- Whole-config-map envFrom source (core/v1 data). -/
structure ConfigMapEnvSource where
  name : String
  optional : Option Bool
deriving DecidableEq, Repr

/-- Whole-secret envFrom source (core/v1 data). -/
structure SecretEnvSource where
  name : String
  optional : Option Bool
deriving DecidableEq, Repr

/-- EnvFrom source (core/v1 data). -/
structure EnvFromSource where
  configMapRef : Option ConfigMapEnvSource
  secretRef : Option SecretEnvSource
deriving DecidableEq, Repr

/-- Container (core/v1 data), restricted to the fields the renderer
reads. -/
structure Container where
  name : String
  env : List EnvVar
  envFrom : List EnvFromSource
deriving DecidableEq, Repr

/-- secretRefs from container.go (nil pointer becomes none). -/
def secretRefs {α : Type} (f : Factory α) (parent : TreeNode) (ns : String) :
    Option SecretKeySelector → TreeNode × List RefWarn
  | none => (parent, [])
  | some ref => addRef f parent SecGVR (FQN ns ref.name) ref.optional

/-- configMapRefs from container.go (nil pointer becomes none). -/
def configMapRefs {α : Type} (f : Factory α) (parent : TreeNode) (ns : String) :
    Option ConfigMapKeySelector → TreeNode × List RefWarn
  | none => (parent, [])
  | some ref => addRef f parent CmGVR (FQN ns ref.name) ref.optional

/-- One iteration of the first loop of envRefs: an env var with a
value source contributes its secret ref, then its config map ref. -/
def envVarStep {α : Type} (f : Factory α) (ns : String) (acc : TreeNode × List RefWarn)
    (e : EnvVar) : TreeNode × List RefWarn :=
  match e.valueFrom with
  | none => acc
  | some vf =>
    let s := secretRefs f acc.1 ns vf.secretKeyRef
    let c := configMapRefs f s.1 ns vf.configMapKeyRef
    (c.1, acc.2 ++ s.2 ++ c.2)

/-- One iteration of the second loop of envRefs: an envFrom source
contributes its whole-config-map ref, then its whole-secret ref. -/
def envFromStep {α : Type} (f : Factory α) (ns : String) (acc : TreeNode × List RefWarn)
    (e : EnvFromSource) : TreeNode × List RefWarn :=
  let a :=
    match e.configMapRef with
    | some r => addRef f acc.1 CmGVR (FQN ns r.name) r.optional
    | none => (acc.1, [])
  let b :=
    match e.secretRef with
    | some r => addRef f a.1 SecGVR (FQN ns r.name) r.optional
    | none => (a.1, [])
  (b.1, acc.2 ++ a.2 ++ b.2)

/-- envRefs from container.go: the two loops in source order. -/
def envRefs {α : Type} (f : Factory α) (parent : TreeNode) (ns : String) (co : Container) :
    TreeNode × List RefWarn :=
  co.envFrom.foldl (envFromStep f ns) (co.env.foldl (envVarStep f ns) (parent, []))

/-- render.ContainerRes, the concrete object type the renderer
expects, restricted to the field the renderer reads. -/
structure ContainerRes where
  container : Container
deriving DecidableEq, Repr

/-- Value of the untyped `o any` argument of Render: either the
expected concrete type, or some other value carrying its dynamic type
name (the %T the error message prints). -/
inductive RenderObj where
  | containerRes (co : ContainerRes)
  | other (typeName : String)

/-- Errors returned by Render: the type mismatch on `o` carrying the
expected and actual type names, the missing factory, and the missing
or mistyped parent node. -/
inductive RenderErr where
  | typeMismatch (expected actual : String)
  | noFactory
  | parentMismatch
deriving DecidableEq, Repr

/-- Traversal context of Render: the factory value and the parent
TreeNode value, each none when the context key is absent or holds a
value of the wrong type (the Go type assertion fails either way). -/
structure RenderCtx (α : Type) where
  factory : Option (Factory α)
  parent : Option TreeNode

/-- Container.Render from container.go: assert the object type, fetch
the factory, build the container node, fetch the parent, derive the
reference namespace from the parent id, discover references, attach.
Errors become Except.error; the updated parent and the warnings are
the success payload. -/
def Render {α : Type} (ctx : RenderCtx α) (ns : String) (o : RenderObj) :
    Except RenderErr (TreeNode × List RefWarn) :=
  match o with
  | RenderObj.other t => Except.error (RenderErr.typeMismatch "ContainerRes" t)
  | RenderObj.containerRes co =>
    match ctx.factory with
    | none => Except.error RenderErr.noFactory
    | some f =>
      let root := NewTreeNode CoGVR (FQN ns co.container.name)
      match ctx.parent with
      | none => Except.error RenderErr.parentMismatch
      | some parent =>
        let pns := (Namespaced parent.id).1
        let r := envRefs f root pns co.container
        Except.ok (parent.Add r.1, r.2)

/-- Identity coincidence of two tree nodes. -/
def sameId (a b : TreeNode) : Prop :=
  a.gvr = b.gvr ∧ a.id = b.id

/-- No two children of the node share their (Kind, ID) identity. -/
def distinctChildren (p : TreeNode) : Prop :=
  p.children.Pairwise (fun a b => ¬ sameId a b)

/-- A sequence of addRef calls on one parent, folded in order. -/
def applyRefs {α : Type} (f : Factory α) (p : TreeNode)
    (calls : List (GVR × String × Option Bool)) : TreeNode :=
  calls.foldl (fun acc c => (addRef f acc c.1 c.2.1 c.2.2).1) p

/-- Concrete mapping for the claim C1 counterexample: a regex key
whose pattern matches the target key sits before the exact key in
iteration order, and the two keys carry different settings. -/
def cexViews : List (String × ViewSetting) :=
  [("Pod@p", ⟨["AGE"], ""⟩), ("Pod@prod", ⟨["NAME"], ""⟩)]

/-- Concrete registry used by witnesses: one view setting and one
registered listener. -/
def cvW : CustomView :=
  ⟨[("Pod", ⟨["NAME"], ""⟩)], [("Deploy", ⟨"ns1"⟩)]⟩

/-- Witness environment: the file read fails. -/
def envUnreadable : LoadEnv :=
  ⟨FileOutcome.unreadable "boom", fun _ => none, fun _ => Except.error "parse"⟩

/-- Witness environment: the file reads but does not parse. -/
def envBadParse : LoadEnv :=
  ⟨FileOutcome.content "doc", fun _ => none, fun _ => Except.error "parse"⟩

/-- Witness environment: the file parses but fails schema validation. -/
def envSchemaBad : LoadEnv :=
  ⟨FileOutcome.content "doc", fun _ => some "schema",
    fun _ => Except.ok [("Pod", ⟨["X"], ""⟩)]⟩

/-- Witness environment: the file does not exist. -/
def envAbsent : LoadEnv :=
  ⟨FileOutcome.notExist, fun _ => none, fun _ => Except.error "parse"⟩

/-- Witness factory whose every query fails. -/
def factoryMissing : Factory Unit :=
  ⟨fun _ _ _ _ => (none, some "boom")⟩

/-- Witness factory whose every query succeeds. -/
def factoryOk : Factory Unit :=
  ⟨fun _ _ _ _ => (some (), none)⟩

/-- Witness node: a secret reference. -/
def nodeW : TreeNode := NewTreeNode SecGVR "default/db-pass"

/-- Witness parent node with no children. -/
def pW : TreeNode := NewTreeNode CoGVR "ns1/web"

/-- Witness parent node after one addRef call. -/
def pW2 : TreeNode := (addRef factoryMissing pW SecGVR "ns1/s1" none).1

/-- Witness call sequence mentioning the same reference twice. -/
def callsW : List (GVR × String × Option Bool) :=
  [(SecGVR, "ns1/s1", none), (SecGVR, "ns1/s1", none), (CmGVR, "ns1/c1", some true)]

/-- Witness container resource: one env var referencing a secret and
one envFrom referencing a whole config map. -/
def coResW : ContainerRes :=
  ⟨⟨"web",
    [⟨some ⟨some ⟨"db-pass", none⟩, none⟩⟩],
    [⟨some ⟨"app-cfg", some true⟩, none⟩]⟩⟩

/-! ## Lemmas about splitCh -/

theorem splitCh_ne_nil (l : List Char) (c : Char) : splitCh l c ≠ [] := by
  induction l with
  | nil => simp [splitCh]
  | cons x xs ih =>
    simp only [splitCh]
    split
    · simp
    · split <;> simp

theorem splitCh_length (l : List Char) (c : Char) :
    (splitCh l c).length = l.count c + 1 := by
  induction l with
  | nil => simp [splitCh]
  | cons x xs ih =>
    by_cases h : x = c
    · subst h
      simp [splitCh, List.count_cons_self, ih]
    · have hc : c ≠ x := fun e => h e.symm
      simp only [splitCh, if_neg h]
      cases hs : splitCh xs c with
      | nil => exact absurd hs (splitCh_ne_nil xs c)
      | cons t ts =>
        rw [hs] at ih
        simp only [List.length_cons] at ih ⊢
        rw [List.count_cons_of_ne hc]
        omega

theorem splitCh_of_notMem (l : List Char) (c : Char) (h : c ∉ l) :
    splitCh l c = [l] := by
  induction l with
  | nil => rfl
  | cons x xs ih =>
    have hx : ¬ x = c := by
      intro e
      exact h (by rw [← e]; exact List.mem_cons_self x xs)
    have hxs : c ∉ xs := fun hc => h (List.mem_cons_of_mem _ hc)
    simp [splitCh, hx, ih hxs]

theorem splitCh_of_mem (l : List Char) (c : Char) (h : c ∈ l) :
    splitCh l c = l.takeWhile (fun x => x ≠ c) :: splitCh (afterFirst l c) c := by
  induction l with
  | nil => cases h
  | cons x xs ih =>
    by_cases hx : x = c
    · subst hx
      simp [splitCh, afterFirst, List.takeWhile_cons, List.dropWhile_cons]
    · have hxs : c ∈ xs := by
        rcases List.mem_cons.mp h with h1 | h2
        · exact absurd h1.symm hx
        · exact h2
      simp only [splitCh, if_neg hx, ih hxs]
      simp [List.takeWhile_cons, List.dropWhile_cons, hx, afterFirst]

theorem splitCh_head (l : List Char) (c : Char) :
    ∃ ts, splitCh l c = l.takeWhile (fun x => x ≠ c) :: ts := by
  induction l with
  | nil => exact ⟨[], rfl⟩
  | cons x xs ih =>
    by_cases h : x = c
    · refine ⟨splitCh xs c, ?_⟩
      simp [splitCh, h, List.takeWhile_cons]
    · obtain ⟨ts, hts⟩ := ih
      refine ⟨ts, ?_⟩
      simp only [splitCh, if_neg h, hts]
      simp [List.takeWhile_cons, h]

theorem splitCh_count_one (l : List Char) (c : Char) (h : l.count c = 1) :
    splitCh l c = [l.takeWhile (fun x => x ≠ c), afterFirst l c] := by
  have hm : c ∈ l := by
    have : 0 < l.count c := by omega
    exact List.count_pos_iff.mp this
  have hsplit := splitCh_of_mem l c hm
  have hlen := splitCh_length l c
  rw [hsplit] at hlen
  simp only [List.length_cons, h] at hlen
  have hlen2 := splitCh_length (afterFirst l c) c
  have hcnt0 : (afterFirst l c).count c = 0 := by omega
  have hnm : c ∉ afterFirst l c := List.count_eq_zero.mp hcnt0
  rw [hsplit, splitCh_of_notMem _ _ hnm]

/-! ## Characterization of getVS -/

theorem getVSGo_eq_find (eng : RegexEngine) (k gvr : String)
    (views : List (String × ViewSetting)) :
    getVSGo eng k gvr views =
      (views.find? (fun kv => keyMatches eng k gvr kv.1)).map (fun kv => kv.2) := by
  induction views with
  | nil => rfl
  | cons kv rest ih =>
    obtain ⟨key, vs⟩ := kv
    by_cases hpre : strStarts gvr key = true
    · by_cases heq : key = k
      · subst heq
        have hkm : keyMatches eng key gvr key = true := by
          simp [keyMatches, hpre]
        simp [getVSGo, hpre, hkm]
      · by_cases hat : key.data.contains '@' = true
        · have hmem : '@' ∈ key.data := List.elem_iff.mp hat
          rcases hsp : splitCh key.data '@' with _ | ⟨t0, tl⟩
          · exact absurd hsp (splitCh_ne_nil _ _)
          rcases tl with _ | ⟨t1, tl2⟩
          · have hlen := splitCh_length key.data '@'
            rw [hsp] at hlen
            simp at hlen
            have hnm : '@' ∉ key.data := List.count_eq_zero.mp (by omega)
            exact absurd hmem hnm
          rcases tl2 with _ | ⟨t2, tl3⟩
          · have hlen := splitCh_length key.data '@'
            rw [hsp] at hlen
            simp at hlen
            have hcnt : key.data.count '@' = 1 := by omega
            have h2 := splitCh_count_one key.data '@' hcnt
            rw [hsp] at h2
            have ht1 : t1 = afterFirst key.data '@' := by
              simp only [List.cons.injEq, and_true] at h2
              exact h2.2
            cases hc : eng.compile (String.mk (afterFirst key.data '@')) with
            | none =>
              have hkm0 : keyMatches eng k gvr key = false := by
                simp [keyMatches, hpre, heq, hcnt, hc]
              simp [getVSGo, hpre, heq, hmem, hsp, ht1, hc, hkm0, ih]
            | some m =>
              by_cases hmk : m k = true
              · have hkm1 : keyMatches eng k gvr key = true := by
                  simp [keyMatches, hpre, heq, hcnt, hc, hmk]
                simp [getVSGo, hpre, heq, hmem, hsp, ht1, hc, hmk, hkm1]
              · have hkm0 : keyMatches eng k gvr key = false := by
                  simp [keyMatches, hpre, heq, hcnt, hc, hmk]
                simp [getVSGo, hpre, heq, hmem, hsp, ht1, hc, hmk, hkm0, ih]
          · have hlen := splitCh_length key.data '@'
            rw [hsp] at hlen
            simp at hlen
            have hcnt : key.data.count '@' ≠ 1 := by omega
            have hkm0 : keyMatches eng k gvr key = false := by
              simp [keyMatches, hpre, heq, hcnt]
            simp [getVSGo, hpre, heq, hmem, hsp, hkm0, ih]
        · have hnmem : '@' ∉ key.data := by
            intro hmem
            exact hat (List.elem_iff.mpr hmem)
          have hcnt : key.data.count '@' = 0 := List.count_eq_zero.mpr hnmem
          have hkm0 : keyMatches eng k gvr key = false := by
            simp [keyMatches, hpre, heq, hcnt]
          simp [getVSGo, hpre, heq, hnmem, hkm0, ih]
    · have hkm0 : keyMatches eng k gvr key = false := by
        simp [keyMatches, hpre]
      simp [getVSGo, hpre, hkm0, ih]

/-- Claim C1 (amended): for every views mapping, in its iteration
order, getVS computes the target key k equal to kind when the
namespace is empty and kind at-sign namespace otherwise, and returns
the setting of the first candidate in iteration order whose string
prefix equals kind and which either is exactly equal to k or contains
exactly one at-sign whose trailing substring compiles as a regular
expression matching k; it returns none when no candidate matches.
Exact equality takes priority over the regex test only within a
single candidate, not across the whole scan. -/
theorem claim1_getVS_first_match (eng : RegexEngine)
    (views : List (String × ViewSetting)) (gvr ns : String) :
    getVS eng views gvr ns =
      (views.find? (fun kv => keyMatches eng (targetKey gvr ns) gvr kv.1)).map
        (fun kv => kv.2) :=
  getVSGo_eq_find eng (targetKey gvr ns) gvr views

/-- Claim C1 (counterexample): the claim gives exact key equality
priority over regex candidates across the whole mapping, but the code
short-circuits on the first matching candidate in iteration order.
On a mapping that holds the regex key Pod at-p before the exact key
Pod at-prod, getVS kind Pod namespace prod returns the setting of the
regex key even though the exact key is present with a different
setting, which the claim rule (getVSClaim) would return. -/
theorem claim1_exact_priority_cex :
    getVS litEngine cexViews "Pod" "prod" = some ⟨["AGE"], ""⟩ ∧
    getVSClaim litEngine cexViews "Pod" "prod" = some ⟨["NAME"], ""⟩ ∧
    (ViewSetting.mk ["AGE"] "" ≠ ViewSetting.mk ["NAME"] "") := by
  refine ⟨by decide, by decide, by decide⟩

/-! ## SortCol -/

/-- Claim C10: for every ViewSetting, SortCol returns an error
exactly when the setting is nil, its SortColumn is empty, or
SortColumn contains no colon separator; otherwise it returns the text
before the first colon together with an ascending flag that is true
precisely when the second colon-separated field equals asc; any other
direction token, misspellings of desc included, is accepted without
error and treated as descending. -/
theorem claim10_sortCol_spec (ov : Option ViewSetting) :
    ((∃ e, SortCol ov = Except.error e) ↔
        ov = none ∨ ∃ v, ov = some v ∧ (v.sortColumn = "" ∨ ':' ∉ v.sortColumn.data)) ∧
    (∀ v col asc, ov = some v → SortCol ov = Except.ok (col, asc) →
        col = String.mk (v.sortColumn.data.takeWhile (fun ch => ch ≠ ':')) ∧
        (asc = true ↔
          String.mk ((afterFirst v.sortColumn.data ':').takeWhile (fun ch => ch ≠ ':')) =
            "asc")) := by
  cases ov with
  | none =>
    constructor
    · simp [SortCol]
    · intro v col asc hv
      cases hv
  | some v =>
    by_cases hemp : v.sortColumn = ""
    · constructor
      · simp [SortCol, hemp]
      · intro v' col asc hv hok
        obtain rfl : v' = v := by cases hv; rfl
        rw [SortCol] at hok
        simp [hemp] at hok
    · by_cases hmem : ':' ∈ v.sortColumn.data
      · obtain ⟨ts, hts⟩ := splitCh_head (afterFirst v.sortColumn.data ':') ':'
        have hsp : splitCh v.sortColumn.data ':' =
            v.sortColumn.data.takeWhile (fun x => x ≠ ':') ::
              ((afterFirst v.sortColumn.data ':').takeWhile (fun x => x ≠ ':')) :: ts := by
          rw [splitCh_of_mem _ _ hmem, hts]
        have hok : SortCol (some v) = Except.ok
            (String.mk (v.sortColumn.data.takeWhile (fun x => x ≠ ':')),
             String.mk ((afterFirst v.sortColumn.data ':').takeWhile (fun x => x ≠ ':'))
               == "asc") := by
          rw [SortCol]
          simp only [if_neg hemp, hsp]
        constructor
        · rw [hok]
          simp [hemp, hmem]
        · intro v' col asc hv hok2
          obtain rfl : v' = v := by cases hv; rfl
          rw [hok] at hok2
          injection hok2 with h
          injection h with hcol hasc
          refine ⟨hcol.symm, ?_⟩
          rw [← hasc]
          exact beq_iff_eq
      · have hsp := splitCh_of_notMem v.sortColumn.data ':' hmem
        have herr : SortCol (some v) = Except.error
            ("invalid sort column spec: " ++ v.sortColumn ++ ". must be col-name:asc|desc") := by
          rw [SortCol]
          simp only [if_neg hemp, hsp]
        constructor
        · rw [herr]
          simp [hemp, hmem]
        · intro v' col asc hv hok2
          obtain rfl : v' = v := by cases hv; rfl
          rw [herr] at hok2
          cases hok2

/-- Claim C10 witness: the theorem applied at the concrete setting
with SortColumn name:Desc, a misspelled direction token: no error is
returned, the column is name, and the flag is descending. -/
theorem claim10_sortCol_witness :
    SortCol (some ⟨[], "name:Desc"⟩) = Except.ok ("name", false) ∧
    ("name" : String) = String.mk (("name:Desc" : String).data.takeWhile (fun ch => ch ≠ ':')) ∧
    (false = true ↔
      String.mk ((afterFirst ("name:Desc" : String).data ':').takeWhile (fun ch => ch ≠ ':')) =
        "asc") := by
  have h := (claim10_sortCol_spec (some ⟨[], "name:Desc"⟩)).2
    ⟨[], "name:Desc"⟩ "name" false rfl rfl
  exact ⟨rfl, h.1, h.2⟩

/-! ## Association-list lemmas for the Go map model -/

theorem find_map_replace {β : Type} (ls : List (String × β)) (k : String) (v : β)
    (h : ls.any (fun p => p.1 == k) = true) :
    (ls.map (fun p => if p.1 == k then (k, v) else p)).find? (fun p => p.1 == k) =
      some (k, v) := by
  induction ls with
  | nil => simp at h
  | cons p ps ih =>
    cases hp : (p.1 == k) with
    | true =>
      simp only [List.map_cons, if_pos hp, List.find?_cons]
      simp
    | false =>
      have h2 : ps.any (fun p => p.1 == k) = true := by
        simp only [List.any_cons, hp, Bool.false_or] at h
        exact h
      have hneg : ¬ (p.1 == k) = true := by simp [hp]
      rw [List.map_cons, if_neg hneg, List.find?_cons, hp]
      exact ih h2

theorem find_append_last {β : Type} (ls : List (String × β)) (k : String) (v : β)
    (h : ls.any (fun p => p.1 == k) = false) :
    (ls ++ [(k, v)]).find? (fun p => p.1 == k) = some (k, v) := by
  induction ls with
  | nil => simp [List.find?_cons]
  | cons p ps ih =>
    simp only [List.any_cons, Bool.or_eq_false_iff] at h
    simp only [List.cons_append, List.find?_cons, h.1]
    exact ih h.2

theorem lookupKey_upsert_self {β : Type} (ls : List (String × β)) (k : String) (v : β) :
    lookupKey (upsert ls k v) k = some v := by
  by_cases h : ls.any (fun p => p.1 == k) = true
  · rw [upsert, if_pos h, lookupKey, find_map_replace ls k v h]
    rfl
  · have h2 : ls.any (fun p => p.1 == k) = false := by
      cases hb : ls.any (fun p => p.1 == k)
      · rfl
      · exact absurd hb h
    rw [upsert, if_neg h, lookupKey, find_append_last ls k v h2]
    rfl

theorem find_map_replace_other {β : Type} (ls : List (String × β)) (k k' : String) (v : β)
    (h : k' ≠ k) :
    (ls.map (fun p => if p.1 == k then (k, v) else p)).find? (fun p => p.1 == k') =
      ls.find? (fun p => p.1 == k') := by
  induction ls with
  | nil => rfl
  | cons p ps ih =>
    cases hp : (p.1 == k) with
    | true =>
      have hpk : p.1 = k := by simpa using hp
      have hnk : (k == k') = false := by
        simp only [beq_eq_false_iff_ne, ne_eq]
        exact fun e => h e.symm
      have hnp : (p.1 == k') = false := by rw [hpk]; exact hnk
      simp only [List.map_cons, if_pos hp, List.find?_cons, hnk, hnp]
      exact ih
    | false =>
      have hneg : ¬ (p.1 == k) = true := by simp [hp]
      simp only [List.map_cons, if_neg hneg, List.find?_cons]
      cases hq : (p.1 == k') with
      | true => rfl
      | false => exact ih

theorem find_append_other {β : Type} (ls : List (String × β)) (k k' : String) (v : β)
    (h : k' ≠ k) :
    (ls ++ [(k, v)]).find? (fun p => p.1 == k') = ls.find? (fun p => p.1 == k') := by
  induction ls with
  | nil =>
    have hnk : (k == k') = false := by
      simp only [beq_eq_false_iff_ne, ne_eq]
      exact fun e => h e.symm
    simp only [List.nil_append, List.find?_cons, hnk, List.find?_nil]
  | cons p ps ih =>
    simp only [List.cons_append, List.find?_cons]
    cases hq : (p.1 == k') with
    | true => rfl
    | false => exact ih

theorem lookupKey_upsert_other {β : Type} (ls : List (String × β)) (k k' : String) (v : β)
    (h : k' ≠ k) : lookupKey (upsert ls k v) k' = lookupKey ls k' := by
  by_cases hb : ls.any (fun p => p.1 == k) = true
  · rw [upsert, if_pos hb, lookupKey, find_map_replace_other ls k k' v h, lookupKey]
  · rw [upsert, if_neg hb, lookupKey, find_append_other ls k k' v h, lookupKey]

/-! ## Claim C8: AddListener -/

/-- Claim C8: AddListener registers the listener, replacing any
previous listener for that kind and leaving other registrations
unchanged, and immediately triggers a notification round in which
every registered listener, not only the new one, receives either none
or the setting computed by getVS from its own kind and its own
reported namespace. -/
theorem claim8_addListener_spec (eng : RegexEngine) (cv : CustomView) (g : String)
    (l : ViewListener) :
    lookupKey (AddListener eng cv g l).1.listeners g = some l ∧
    (∀ g', g' ≠ g →
      lookupKey (AddListener eng cv g l).1.listeners g' = lookupKey cv.listeners g') ∧
    (AddListener eng cv g l).2.length = (AddListener eng cv g l).1.listeners.length ∧
    (∀ p ∈ (AddListener eng cv g l).1.listeners,
      (p.1, getVS eng cv.views p.1 p.2.ns) ∈ (AddListener eng cv g l).2) := by
  refine ⟨?_, ?_, ?_, ?_⟩
  · exact lookupKey_upsert_self cv.listeners g l
  · intro g' hg
    exact lookupKey_upsert_other cv.listeners g g' l hg
  · simp [AddListener, fireConfigChanged]
  · intro p hp
    exact List.mem_map_of_mem _ hp

/-- Claim C8 witness: adding a Pod listener to a registry that
already holds a Deploy listener: the Pod listener is registered, the
Deploy registration is untouched, and the Deploy listener is notified
with the setting getVS computes for it. -/
theorem claim8_addListener_witness :
    lookupKey (AddListener litEngine cvW "Pod" ⟨""⟩).1.listeners "Pod" = some ⟨""⟩ ∧
    lookupKey (AddListener litEngine cvW "Pod" ⟨""⟩).1.listeners "Deploy" =
      lookupKey cvW.listeners "Deploy" ∧
    ("Deploy", getVS litEngine cvW.views "Deploy" (ViewListener.mk "ns1").ns) ∈
      (AddListener litEngine cvW "Pod" ⟨""⟩).2 := by
  have h := claim8_addListener_spec litEngine cvW "Pod" ⟨""⟩
  exact ⟨h.1, h.2.1 "Deploy" (by decide), h.2.2.2 ("Deploy", ⟨"ns1"⟩) (by decide)⟩

/-! ## Claims C4, C5, C9: Load -/

/-- Claim C5: for every registry state, CustomView.Load on a path
that does not exist returns no error, leaves the registry exactly as
it was, logs nothing and notifies no listener. -/
theorem claim5_load_not_exist (eng : RegexEngine) (env : LoadEnv) (cv : CustomView)
    (path : String) (h : env.file = FileOutcome.notExist) :
    Load eng env cv path = ⟨none, cv, [], []⟩ := by
  simp [Load, h]

/-- Claim C5 witness: the theorem applied to a concrete registry and
an environment whose stat call reports the file as absent. -/
theorem claim5_load_not_exist_witness :
    Load litEngine envAbsent cvW "views.yaml" = ⟨none, cvW, [], []⟩ :=
  claim5_load_not_exist litEngine envAbsent cvW "views.yaml" rfl

/-- Claim C9: when the file exists and its content fails to parse,
Load returns the parse error atomically: the Views mapping is exactly
what it was before the call and no listener receives any
notification. -/
theorem claim9_load_parse_error (eng : RegexEngine) (env : LoadEnv) (cv : CustomView)
    (path bb e : String) (hf : env.file = FileOutcome.content bb)
    (hp : env.parse bb = Except.error e) :
    (Load eng env cv path).err = some e ∧
    (Load eng env cv path).cv.views = cv.views ∧
    (Load eng env cv path).events = [] := by
  simp [Load, hf, hp]

/-- Claim C9 witness: the theorem applied to a concrete registry and
an environment whose file content fails to parse. -/
theorem claim9_load_parse_error_witness :
    (Load litEngine envBadParse cvW "views.yaml").err = some "parse" ∧
    (Load litEngine envBadParse cvW "views.yaml").cv.views = cvW.views ∧
    (Load litEngine envBadParse cvW "views.yaml").events = [] :=
  claim9_load_parse_error litEngine envBadParse cvW "views.yaml" "doc" "parse" rfl rfl

/-- Claim C4: Load on an existing file fails with the read error when
the file cannot be read and with the parse error when the content
fails to parse, leaving the registry unchanged; when the content
parses and only fails schema validation, Load does not fail: it logs
one diagnostic warning naming the path and the validation error,
replaces the Views mapping with the parsed content anyway, and
notifies every registered listener.  The returned error values are
the ones produced by the read and parse collaborators. -/
theorem claim4_load_spec (eng : RegexEngine) (env : LoadEnv) (cv : CustomView)
    (path : String) :
    (∀ e, env.file = FileOutcome.unreadable e →
        Load eng env cv path = ⟨some e, cv, [], []⟩) ∧
    (∀ bb e, env.file = FileOutcome.content bb → env.parse bb = Except.error e →
        (Load eng env cv path).err = some e ∧
        (Load eng env cv path).cv.views = cv.views ∧
        (Load eng env cv path).events = []) ∧
    (∀ bb ve vws, env.file = FileOutcome.content bb →
        env.schemaValidate bb = some ve → env.parse bb = Except.ok vws →
        (Load eng env cv path).err = none ∧
        (Load eng env cv path).warns = [(path, ve)] ∧
        (Load eng env cv path).cv.views = vws ∧
        (Load eng env cv path).events.length = cv.listeners.length ∧
        ∀ p ∈ cv.listeners,
          (p.1, getVS eng vws p.1 p.2.ns) ∈ (Load eng env cv path).events) := by
  refine ⟨?_, ?_, ?_⟩
  · intro e hf
    simp [Load, hf]
  · intro bb e hf hp
    simp [Load, hf, hp]
  · intro bb ve vws hf hv hp
    refine ⟨?_, ?_, ?_, ?_, ?_⟩
    · simp [Load, hf, hv, hp]
    · simp [Load, hf, hv, hp]
    · simp [Load, hf, hv, hp]
    · simp [Load, hf, hv, hp, fireConfigChanged]
    · intro p hp2
      simp only [Load, hf, hv, hp, fireConfigChanged]
      exact List.mem_map_of_mem _ hp2

/-- Claim C4 witness: the theorem applied at concrete environments
for each of its three cases: an unreadable file, an unparseable file,
and a file that parses but fails schema validation, over a registry
with one listener. -/
theorem claim4_load_witness :
    Load litEngine envUnreadable cvW "views.yaml" = ⟨some "boom", cvW, [], []⟩ ∧
    (Load litEngine envBadParse cvW "views.yaml").cv.views = cvW.views ∧
    ((Load litEngine envSchemaBad cvW "views.yaml").err = none ∧
      (Load litEngine envSchemaBad cvW "views.yaml").warns = [("views.yaml", "schema")] ∧
      (Load litEngine envSchemaBad cvW "views.yaml").cv.views = [("Pod", ⟨["X"], ""⟩)] ∧
      ("Deploy", getVS litEngine [("Pod", ⟨["X"], ""⟩)] "Deploy" "ns1") ∈
        (Load litEngine envSchemaBad cvW "views.yaml").events) := by
  have h1 := (claim4_load_spec litEngine envUnreadable cvW "views.yaml").1 "boom" rfl
  have h2 := (claim4_load_spec litEngine envBadParse cvW "views.yaml").2.1 "doc" "parse" rfl rfl
  have h3 := (claim4_load_spec litEngine envSchemaBad cvW "views.yaml").2.2 "doc" "schema"
    [("Pod", ⟨["X"], ""⟩)] rfl rfl rfl
  exact ⟨h1, h2.2.1, h3.1, h3.2.1, h3.2.2.1, h3.2.2.2.2 ("Deploy", ⟨"ns1"⟩) (by decide)⟩

/-! ## TreeNode accessor lemmas -/

@[simp] theorem gvr_mk (g : GVR) (i : String) (e : List (String × String))
    (c : List TreeNode) : (TreeNode.mk g i e c).gvr = g := rfl

@[simp] theorem id_mk (g : GVR) (i : String) (e : List (String × String))
    (c : List TreeNode) : (TreeNode.mk g i e c).id = i := rfl

@[simp] theorem extras_mk (g : GVR) (i : String) (e : List (String × String))
    (c : List TreeNode) : (TreeNode.mk g i e c).extras = e := rfl

@[simp] theorem children_mk (g : GVR) (i : String) (e : List (String × String))
    (c : List TreeNode) : (TreeNode.mk g i e c).children = c := rfl

@[simp] theorem setExtraKey_gvr (n : TreeNode) (k v : String) :
    (n.setExtraKey k v).gvr = n.gvr := rfl

@[simp] theorem setExtraKey_id (n : TreeNode) (k v : String) :
    (n.setExtraKey k v).id = n.id := rfl

@[simp] theorem setExtraKey_extras (n : TreeNode) (k v : String) :
    (n.setExtraKey k v).extras = upsert n.extras k v := rfl

@[simp] theorem setExtraKey_children (n : TreeNode) (k v : String) :
    (n.setExtraKey k v).children = n.children := rfl

@[simp] theorem Add_gvr (p n : TreeNode) : (p.Add n).gvr = p.gvr := rfl

@[simp] theorem Add_id (p n : TreeNode) : (p.Add n).id = p.id := rfl

@[simp] theorem Add_extras (p n : TreeNode) : (p.Add n).extras = p.extras := rfl

@[simp] theorem Add_children (p n : TreeNode) : (p.Add n).children = p.children ++ [n] := rfl

@[simp] theorem NewTreeNode_gvr (g : GVR) (i : String) : (NewTreeNode g i).gvr = g := rfl

@[simp] theorem NewTreeNode_id (g : GVR) (i : String) : (NewTreeNode g i).id = i := rfl

@[simp] theorem NewTreeNode_children (g : GVR) (i : String) :
    (NewTreeNode g i).children = [] := rfl

@[simp] theorem NewTreeNode_extras (g : GVR) (i : String) :
    (NewTreeNode g i).extras = [] := rfl

/-! ## validate -/

theorem validate_preserves {α : Type} (f : Factory α) (n : TreeNode) (opt : Option Bool) :
    (validate f n opt).1.gvr = n.gvr ∧ (validate f n opt).1.id = n.id ∧
    (validate f n opt).1.children = n.children := by
  rcases hg : f.get n.gvr n.id true Selector.everything with ⟨res, err⟩
  by_cases hc : (err.isSome || res.isNone) = true
  · cases opt with
    | none => simp [validate, hg, hc]
    | some b =>
      cases b with
      | true => simp [validate, hg, hc]
      | false => simp [validate, hg, hc]
  · simp [validate, hg, hc]

/-- Claim C2: for every node and every optional flag, validate
queries the Factory fresh (skipCache true, unrestricted selector); if
the query errors or returns no object and optional is unset or false,
the node status Extra is set to MissingRef and exactly one diagnostic
warning is logged; if the query errors or returns no object and
optional is true, the node is returned untouched and nothing is
logged; if the query succeeds, the node status Extra is set to Ok
regardless of optional.  The embedding of validate returns a plain
pair with no error component, matching the Go signature that returns
nothing: validate never returns an error to its caller. -/
theorem claim2_validate_spec {α : Type} (f : Factory α) (n : TreeNode) (opt : Option Bool) :
    (((f.get n.gvr n.id true Selector.everything).2.isSome = true ∨
        (f.get n.gvr n.id true Selector.everything).1 = none) →
      ((opt = none ∨ opt = some false) →
        lookupKey (validate f n opt).1.extras StatusKey = some MissingRefStatus ∧
        (validate f n opt).2.length = 1) ∧
      (opt = some true → validate f n opt = (n, []))) ∧
    ((f.get n.gvr n.id true Selector.everything).2 = none ∧
        (f.get n.gvr n.id true Selector.everything).1.isSome = true →
      (∀ o2 : Option Bool,
        lookupKey (validate f n o2).1.extras StatusKey = some OkStatus ∧
        (validate f n o2).2 = [])) := by
  rcases hg : f.get n.gvr n.id true Selector.everything with ⟨res, err⟩
  constructor
  · intro hfail
    have hc : (err.isSome || res.isNone) = true := by
      rcases hfail with h1 | h2
      · have h1' : err.isSome = true := h1
        simp [h1']
      · have h2' : res = none := h2
        simp [h2']
    constructor
    · rintro (rfl | rfl)
      · constructor
        · simp only [validate, hg, if_pos hc, setExtraKey_extras]
          exact lookupKey_upsert_self n.extras StatusKey MissingRefStatus
        · simp [validate, hg, hc]
      · constructor
        · simp only [validate, hg, if_pos hc, setExtraKey_extras]
          exact lookupKey_upsert_self n.extras StatusKey MissingRefStatus
        · simp [validate, hg, hc]
    · rintro rfl
      simp [validate, hg, hc]
  · intro hok o2
    have hok1 : err = none := hok.1
    have hok2 : res.isSome = true := hok.2
    have hcn : ¬ (err.isSome || res.isNone) = true := by
      simp [hok1, Option.isNone_iff_eq_none]
      intro hcon
      rw [hcon] at hok2
      simp at hok2
    constructor
    · simp only [validate, hg, if_neg hcn, setExtraKey_extras]
      exact lookupKey_upsert_self n.extras StatusKey OkStatus
    · simp [validate, hg, hcn]

/-- Claim C2 witness: the theorem applied to a factory whose query
fails, with optional unset and with optional true, and to a factory
whose query succeeds, on a concrete secret node. -/
theorem claim2_validate_witness :
    (lookupKey (validate factoryMissing nodeW none).1.extras StatusKey =
        some MissingRefStatus ∧
      (validate factoryMissing nodeW none).2.length = 1) ∧
    validate factoryMissing nodeW (some true) = (nodeW, []) ∧
    (lookupKey (validate factoryOk nodeW (some false)).1.extras StatusKey =
        some OkStatus ∧
      (validate factoryOk nodeW (some false)).2 = []) := by
  have h1 := (claim2_validate_spec factoryMissing nodeW none).1 (Or.inl rfl)
  have h2 := (claim2_validate_spec factoryMissing nodeW (some true)).1 (Or.inl rfl)
  have h3 := (claim2_validate_spec factoryOk nodeW (some false)).2 ⟨rfl, rfl⟩ (some false)
  exact ⟨h1.1 (Or.inl rfl), h2.2 rfl, h3⟩

/-! ## addRef -/

theorem find?_concat_pos {γ : Type} (l : List γ) (p : γ → Bool) (a : γ) (h : p a = true) :
    ∃ b, (l ++ [a]).find? p = some b := by
  induction l with
  | nil =>
    refine ⟨a, ?_⟩
    simp only [List.nil_append, List.find?_cons, h]
  | cons x xs ih =>
    cases hx : p x with
    | true =>
      refine ⟨x, ?_⟩
      simp only [List.cons_append, List.find?_cons, hx]
    | false =>
      obtain ⟨b, hb⟩ := ih
      refine ⟨b, ?_⟩
      simp only [List.cons_append, List.find?_cons, hx]
      exact hb

theorem addRef_preserves_distinct {α : Type} (f : Factory α) (p : TreeNode) (g : GVR)
    (i : String) (o : Option Bool) (h : distinctChildren p) :
    distinctChildren (addRef f p g i o).1 := by
  cases hf : p.Find g i with
  | some c => simpa [addRef, hf] using h
  | none =>
    have hn := validate_preserves f (NewTreeNode g i) o
    have hng : (validate f (NewTreeNode g i) o).1.gvr = g := hn.1
    have hni : (validate f (NewTreeNode g i) o).1.id = i := hn.2.1
    rw [TreeNode.Find] at hf
    have hall := List.find?_eq_none.mp hf
    simp only [addRef, hf]
    rw [distinctChildren] at h ⊢
    cases hpf : p.Find g i with
    | some c =>
      rw [TreeNode.Find, hf] at hpf
      cases hpf
    | none =>
      simp only [addRef, hpf, Add_children]
      rw [List.pairwise_append]
      refine ⟨h, List.pairwise_singleton _ _, ?_⟩
      intro a ha b hb
      have hb2 : b = (validate f (NewTreeNode g i) o).1 := by simpa using hb
      subst hb2
      intro hsame
      have h1 : a.gvr = g := by rw [hsame.1, hng]
      have h2 : a.id = i := by rw [hsame.2, hni]
      exact hall a ha (by simp [h1, h2])

theorem applyRefs_distinct {α : Type} (f : Factory α)
    (calls : List (GVR × String × Option Bool)) :
    ∀ p : TreeNode, distinctChildren p → distinctChildren (applyRefs f p calls) := by
  induction calls with
  | nil =>
    intro p h
    simpa [applyRefs] using h
  | cons c cs ih =>
    intro p h
    have hstep := addRef_preserves_distinct f p c.1 c.2.1 c.2.2 h
    have : applyRefs f p (c :: cs) = applyRefs f (addRef f p c.1 c.2.1 c.2.2).1 cs := rfl
    rw [this]
    exact ih _ hstep

/-- Claim C3: addRef is a no-op when the parent already has a child
with the given identity, and otherwise creates, validates and
attaches exactly one new child carrying that identity; addRef is
idempotent in the parent, so a reference mentioned twice yields
exactly one child; and any sequence of addRef calls on a parent whose
children have pairwise distinct identities preserves that
distinctness. -/
theorem claim3_addRef_spec {α : Type} (f : Factory α) (p : TreeNode) (g : GVR) (i : String)
    (o : Option Bool) :
    (p.Find g i ≠ none → addRef f p g i o = (p, [])) ∧
    (p.Find g i = none → ∃ n, (addRef f p g i o).1.children = p.children ++ [n] ∧
      n.gvr = g ∧ n.id = i) ∧
    (addRef f (addRef f p g i o).1 g i o).1 = (addRef f p g i o).1 ∧
    (∀ calls, distinctChildren p → distinctChildren (applyRefs f p calls)) := by
  refine ⟨?_, ?_, ?_, ?_⟩
  · intro hne
    cases hf : p.Find g i with
    | none => exact absurd hf hne
    | some c => simp [addRef, hf]
  · intro hf
    refine ⟨(validate f (NewTreeNode g i) o).1, ?_, (validate_preserves f _ o).1,
      (validate_preserves f _ o).2.1⟩
    simp [addRef, hf]
  · cases hf : p.Find g i with
    | some c => simp [addRef, hf]
    | none =>
      have hn := validate_preserves f (NewTreeNode g i) o
      have hpred : ((validate f (NewTreeNode g i) o).1.gvr == g &&
          (validate f (NewTreeNode g i) o).1.id == i) = true := by
        simp [hn.1, hn.2.1]
      obtain ⟨b, hb⟩ := find?_concat_pos p.children
        (fun c => c.gvr == g && c.id == i) ((validate f (NewTreeNode g i) o).1) hpred
      have hchildren : (addRef f p g i o).1.children =
          p.children ++ [(validate f (NewTreeNode g i) o).1] := by
        simp [addRef, hf]
      have hfind : ((addRef f p g i o).1).Find g i = some b := by
        rw [TreeNode.Find, hchildren]
        exact hb
      generalize hQ : (addRef f p g i o).1 = q at hfind ⊢
      simp [addRef, hfind]
  · intro calls h
    exact applyRefs_distinct f calls p h

/-- Claim C3 witness: the theorem applied to a concrete empty parent
and a concrete secret reference: attaching once adds exactly one
child, a second identical addRef is a no-op, and the concrete call
sequence naming the same secret twice leaves the children pairwise
distinct. -/
theorem claim3_addRef_witness :
    addRef factoryMissing pW2 SecGVR "ns1/s1" none = (pW2, []) ∧
    (∃ n, (addRef factoryMissing pW SecGVR "ns1/s1" none).1.children = pW.children ++ [n] ∧
      n.gvr = SecGVR ∧ n.id = "ns1/s1") ∧
    distinctChildren (applyRefs factoryMissing pW callsW) := by
  have hfind : pW2.Find SecGVR "ns1/s1" =
      some ((validate factoryMissing (NewTreeNode SecGVR "ns1/s1") none).1) := rfl
  have hne : pW2.Find SecGVR "ns1/s1" ≠ none := by
    rw [hfind]
    simp
  have h1 := (claim3_addRef_spec factoryMissing pW2 SecGVR "ns1/s1" none).1 hne
  have h2 := (claim3_addRef_spec factoryMissing pW SecGVR "ns1/s1" none).2.1 rfl
  have h4 := (claim3_addRef_spec factoryMissing pW SecGVR "ns1/s1" none).2.2.2 callsW
    (List.Pairwise.nil)
  exact ⟨h1, h2, h4⟩

/-! ## Render -/

/-- Claim C6: Render returns a type-mismatch error identifying the
expected and actual types whenever the object argument is not the
concrete container type, never silently no-oping, and returns an
error rather than panicking when the context is missing the Factory
handle or the parent TreeNode.  The embedding is a total function
whose error branches carry no tree, so in every error case the
parent node held by the caller is left unchanged by construction. -/
theorem claim6_render_errors {α : Type} (ctx : RenderCtx α) (ns : String) :
    (∀ t, Render ctx ns (RenderObj.other t) =
        Except.error (RenderErr.typeMismatch "ContainerRes" t)) ∧
    (∀ co, ctx.factory = none →
        Render ctx ns (RenderObj.containerRes co) = Except.error RenderErr.noFactory) ∧
    (∀ co f, ctx.factory = some f → ctx.parent = none →
        Render ctx ns (RenderObj.containerRes co) =
          Except.error RenderErr.parentMismatch) := by
  refine ⟨fun t => rfl, ?_, ?_⟩
  · intro co hf
    simp [Render, hf]
  · intro co f hf hp
    simp [Render, hf, hp]

/-- Claim C6 witness: the theorem applied at a wrongly typed object,
at a context with no factory, and at a context with a factory but no
parent node. -/
theorem claim6_render_errors_witness :
    Render (RenderCtx.mk none none : RenderCtx Unit) "ns1" (RenderObj.other "PodRes") =
      Except.error (RenderErr.typeMismatch "ContainerRes" "PodRes") ∧
    Render (RenderCtx.mk none none : RenderCtx Unit) "ns1" (RenderObj.containerRes coResW) =
      Except.error RenderErr.noFactory ∧
    Render (RenderCtx.mk (some factoryOk) none) "ns1" (RenderObj.containerRes coResW) =
      Except.error RenderErr.parentMismatch := by
  have h1 := claim6_render_errors (RenderCtx.mk none none : RenderCtx Unit) "ns1"
  have h2 := claim6_render_errors (RenderCtx.mk (some factoryOk) none) "ns1"
  exact ⟨h1.1 "PodRes", h1.2.1 coResW rfl, h2.2.2 coResW factoryOk rfl rfl⟩

/-! ## Children-only dependence of the reference discovery -/

theorem Find_congr (a b : TreeNode) (g : GVR) (i : String) (h : a.children = b.children) :
    a.Find g i = b.Find g i := by
  rw [TreeNode.Find, TreeNode.Find, h]

theorem addRef_congr {α : Type} (f : Factory α) (a b : TreeNode) (g : GVR) (i : String)
    (o : Option Bool) (h : a.children = b.children) :
    (addRef f a g i o).1.children = (addRef f b g i o).1.children ∧
    (addRef f a g i o).2 = (addRef f b g i o).2 := by
  have hf := Find_congr a b g i h
  cases hb : b.Find g i with
  | some c =>
    have ha : a.Find g i = some c := by rw [hf, hb]
    simp [addRef, ha, hb, h]
  | none =>
    have ha : a.Find g i = none := by rw [hf, hb]
    simp [addRef, ha, hb, h]

theorem secretRefs_congr {α : Type} (f : Factory α) (a b : TreeNode) (ns : String)
    (r : Option SecretKeySelector) (h : a.children = b.children) :
    (secretRefs f a ns r).1.children = (secretRefs f b ns r).1.children ∧
    (secretRefs f a ns r).2 = (secretRefs f b ns r).2 := by
  cases r with
  | none => exact ⟨h, rfl⟩
  | some ref => exact addRef_congr f a b SecGVR (FQN ns ref.name) ref.optional h

theorem configMapRefs_congr {α : Type} (f : Factory α) (a b : TreeNode) (ns : String)
    (r : Option ConfigMapKeySelector) (h : a.children = b.children) :
    (configMapRefs f a ns r).1.children = (configMapRefs f b ns r).1.children ∧
    (configMapRefs f a ns r).2 = (configMapRefs f b ns r).2 := by
  cases r with
  | none => exact ⟨h, rfl⟩
  | some ref => exact addRef_congr f a b CmGVR (FQN ns ref.name) ref.optional h

theorem envVarStep_congr {α : Type} (f : Factory α) (ns : String) (e : EnvVar)
    (x y : TreeNode × List RefWarn) (h1 : x.1.children = y.1.children) (h2 : x.2 = y.2) :
    (envVarStep f ns x e).1.children = (envVarStep f ns y e).1.children ∧
    (envVarStep f ns x e).2 = (envVarStep f ns y e).2 := by
  cases hv : e.valueFrom with
  | none => simpa [envVarStep, hv] using ⟨h1, h2⟩
  | some vf =>
    have hs := secretRefs_congr f x.1 y.1 ns vf.secretKeyRef h1
    have hc := configMapRefs_congr f (secretRefs f x.1 ns vf.secretKeyRef).1
      (secretRefs f y.1 ns vf.secretKeyRef).1 ns vf.configMapKeyRef hs.1
    constructor
    · simp only [envVarStep, hv]
      exact hc.1
    · simp only [envVarStep, hv]
      rw [h2, hs.2, hc.2]

theorem envFromStep_congr {α : Type} (f : Factory α) (ns : String) (e : EnvFromSource)
    (x y : TreeNode × List RefWarn) (h1 : x.1.children = y.1.children) (h2 : x.2 = y.2) :
    (envFromStep f ns x e).1.children = (envFromStep f ns y e).1.children ∧
    (envFromStep f ns x e).2 = (envFromStep f ns y e).2 := by
  have ha : ((match e.configMapRef with
        | some r => addRef f x.1 CmGVR (FQN ns r.name) r.optional
        | none => (x.1, [])) : TreeNode × List RefWarn).1.children =
      ((match e.configMapRef with
        | some r => addRef f y.1 CmGVR (FQN ns r.name) r.optional
        | none => (y.1, [])) : TreeNode × List RefWarn).1.children ∧
      ((match e.configMapRef with
        | some r => addRef f x.1 CmGVR (FQN ns r.name) r.optional
        | none => (x.1, [])) : TreeNode × List RefWarn).2 =
      ((match e.configMapRef with
        | some r => addRef f y.1 CmGVR (FQN ns r.name) r.optional
        | none => (y.1, [])) : TreeNode × List RefWarn).2 := by
    cases e.configMapRef with
    | none => exact ⟨h1, rfl⟩
    | some r => exact addRef_congr f x.1 y.1 CmGVR (FQN ns r.name) r.optional h1
  have hb : ((match e.secretRef with
        | some r => addRef f ((match e.configMapRef with
            | some r => addRef f x.1 CmGVR (FQN ns r.name) r.optional
            | none => (x.1, [])) : TreeNode × List RefWarn).1 SecGVR (FQN ns r.name) r.optional
        | none => (((match e.configMapRef with
            | some r => addRef f x.1 CmGVR (FQN ns r.name) r.optional
            | none => (x.1, [])) : TreeNode × List RefWarn).1, [])) :
          TreeNode × List RefWarn).1.children =
      ((match e.secretRef with
        | some r => addRef f ((match e.configMapRef with
            | some r => addRef f y.1 CmGVR (FQN ns r.name) r.optional
            | none => (y.1, [])) : TreeNode × List RefWarn).1 SecGVR (FQN ns r.name) r.optional
        | none => (((match e.configMapRef with
            | some r => addRef f y.1 CmGVR (FQN ns r.name) r.optional
            | none => (y.1, [])) : TreeNode × List RefWarn).1, [])) :
          TreeNode × List RefWarn).1.children ∧
      ((match e.secretRef with
        | some r => addRef f ((match e.configMapRef with
            | some r => addRef f x.1 CmGVR (FQN ns r.name) r.optional
            | none => (x.1, [])) : TreeNode × List RefWarn).1 SecGVR (FQN ns r.name) r.optional
        | none => (((match e.configMapRef with
            | some r => addRef f x.1 CmGVR (FQN ns r.name) r.optional
            | none => (x.1, [])) : TreeNode × List RefWarn).1, [])) :
          TreeNode × List RefWarn).2 =
      ((match e.secretRef with
        | some r => addRef f ((match e.configMapRef with
            | some r => addRef f y.1 CmGVR (FQN ns r.name) r.optional
            | none => (y.1, [])) : TreeNode × List RefWarn).1 SecGVR (FQN ns r.name) r.optional
        | none => (((match e.configMapRef with
            | some r => addRef f y.1 CmGVR (FQN ns r.name) r.optional
            | none => (y.1, [])) : TreeNode × List RefWarn).1, [])) :
          TreeNode × List RefWarn).2 := by
    cases e.secretRef with
    | none => exact ⟨ha.1, rfl⟩
    | some r => exact addRef_congr f _ _ SecGVR (FQN ns r.name) r.optional ha.1
  constructor
  · simp only [envFromStep]
    exact hb.1
  · simp only [envFromStep]
    rw [h2, ha.2, hb.2]

theorem foldl_envVar_congr {α : Type} (f : Factory α) (ns : String) (es : List EnvVar) :
    ∀ x y : TreeNode × List RefWarn, x.1.children = y.1.children → x.2 = y.2 →
      (es.foldl (envVarStep f ns) x).1.children =
        (es.foldl (envVarStep f ns) y).1.children ∧
      (es.foldl (envVarStep f ns) x).2 = (es.foldl (envVarStep f ns) y).2 := by
  induction es with
  | nil => exact fun x y h1 h2 => ⟨h1, h2⟩
  | cons e es ih =>
    intro x y h1 h2
    have hstep := envVarStep_congr f ns e x y h1 h2
    simp only [List.foldl_cons]
    exact ih _ _ hstep.1 hstep.2

theorem foldl_envFrom_congr {α : Type} (f : Factory α) (ns : String)
    (es : List EnvFromSource) :
    ∀ x y : TreeNode × List RefWarn, x.1.children = y.1.children → x.2 = y.2 →
      (es.foldl (envFromStep f ns) x).1.children =
        (es.foldl (envFromStep f ns) y).1.children ∧
      (es.foldl (envFromStep f ns) x).2 = (es.foldl (envFromStep f ns) y).2 := by
  induction es with
  | nil => exact fun x y h1 h2 => ⟨h1, h2⟩
  | cons e es ih =>
    intro x y h1 h2
    have hstep := envFromStep_congr f ns e x y h1 h2
    simp only [List.foldl_cons]
    exact ih _ _ hstep.1 hstep.2

theorem envRefs_congr {α : Type} (f : Factory α) (a b : TreeNode) (ns : String)
    (co : Container) (h : a.children = b.children) :
    (envRefs f a ns co).1.children = (envRefs f b ns co).1.children ∧
    (envRefs f a ns co).2 = (envRefs f b ns co).2 := by
  have h1 := foldl_envVar_congr f ns co.env (a, []) (b, []) h rfl
  exact foldl_envFrom_congr f ns co.envFrom _ _ h1.1 h1.2

/-- Claim C7: for every successful Render call, the namespace used to
build the IDs of the discovered secret and config references is the
namespace component of the parent TreeNode id, not the namespace
argument passed to Render: rendering with an arbitrary namespace
argument and rendering with the parent-derived namespace attach
container nodes with identical child lists (and identical warnings),
so the same reference renders to the same child ID regardless of the
namespace argument. -/
theorem claim7_render_parent_namespace {α : Type} (f : Factory α) (p : TreeNode)
    (co : ContainerRes) (ns : String) :
    ∃ r1 r2 w,
      Render (RenderCtx.mk (some f) (some p)) ns (RenderObj.containerRes co) =
        Except.ok (p.Add r1, w) ∧
      Render (RenderCtx.mk (some f) (some p)) (Namespaced p.id).1
        (RenderObj.containerRes co) = Except.ok (p.Add r2, w) ∧
      r1.children = r2.children := by
  have hcong := envRefs_congr f
    (NewTreeNode CoGVR (FQN (Namespaced p.id).1 co.container.name))
    (NewTreeNode CoGVR (FQN ns co.container.name))
    (Namespaced p.id).1 co.container rfl
  refine ⟨(envRefs f (NewTreeNode CoGVR (FQN ns co.container.name)) (Namespaced p.id).1
      co.container).1,
    (envRefs f (NewTreeNode CoGVR (FQN (Namespaced p.id).1 co.container.name))
      (Namespaced p.id).1 co.container).1,
    (envRefs f (NewTreeNode CoGVR (FQN ns co.container.name)) (Namespaced p.id).1
      co.container).2, rfl, ?_, hcong.1.symm⟩
  have hred : Render (RenderCtx.mk (some f) (some p)) (Namespaced p.id).1
      (RenderObj.containerRes co) =
      Except.ok (p.Add (envRefs f (NewTreeNode CoGVR (FQN (Namespaced p.id).1
          co.container.name)) (Namespaced p.id).1 co.container).1,
        (envRefs f (NewTreeNode CoGVR (FQN (Namespaced p.id).1 co.container.name))
          (Namespaced p.id).1 co.container).2) := rfl
  rw [hred, hcong.2]

end K9s
